import Mathlib

/-!
Verification of the ChaosChain causal-DKG / audit-scoring core against its
specification.  The Python sources embedded here are
`packages/sdk/chaoschain_sdk/xmtp_client.py` (message model, canonical hash,
Merkle thread root, causality check, VLC, DAG depth) and
`packages/sdk/chaoschain_sdk/verifier_agent.py` (causal audit pipeline and
multi-dimensional scoring).

Modelling conventions:
- byte strings are `List Nat` (each entry one byte);
- the keccak256 hash is kept abstract: every definition that hashes takes the
  hash as an explicit function parameter (`Hs` for hashing of text,
  `Hb` for hashing of byte strings), since the hash primitive lives in the
  external `eth_utils` library, not in this repository;
- Python `float` arithmetic is modelled with `ℚ`; all the score formulas at
  stake use the same operations on both sides of each claim, so no claim
  depends on rounding of binary floating point;
- fallible code paths (a raised exception) are modelled with `Option`,
  `none` standing for the raised exception.
-/

/-- Node of the causal DAG, mirroring the `XMTPMessage` dataclass
(`xmtp_client.py`): fields `id`, `author`, `content`, `timestamp` (an int),
optional `parent_id`, `signature` and `vlc` (a hex string). -/
structure XMTPMessage where
  id : String
  author : String
  content : String
  timestamp : Int
  parent_id : Option String
  signature : Option String
  vlc : Option String
deriving DecidableEq, Repr

/-- Python truthiness of an optional string: `None` and the empty string are
falsy, every other string is truthy. -/
def strTruthy : Option String → Bool
  | none => false
  | some s => !(s == "")

/-- Canonical field-ordered text of a message, from `_compute_message_hash`:
`f"{author}|{timestamp}|{id}|{content}|{parent_id or two-quote-empty}"`.
`toString` on `Int` agrees with the Python rendering of an int. -/
def canonicalText (m : XMTPMessage) : String :=
  m.author ++ ("|") ++ toString m.timestamp ++ ("|") ++ m.id ++ ("|")
    ++ m.content ++ ("|") ++ m.parent_id.getD ("")

/-- `_compute_message_hash`: keccak of the canonical text (`Hs` abstracts
`keccak(text=...)`). -/
def compute_message_hash (Hs : String → List Nat) (m : XMTPMessage) : List Nat :=
  Hs (canonicalText m)

/-- One level of the Merkle tree, from the inner `for i in range(0, len, 2)`
loop of `_compute_merkle_root`: combine pairs, an odd trailing node is
combined with itself. -/
def merkleLevel (Hb : List Nat → List Nat) : List (List Nat) → List (List Nat)
  | [] => []
  | [a] => [Hb (a ++ a)]
  | a :: b :: rest => Hb (a ++ b) :: merkleLevel Hb rest

/-- The `while len(current_level) > 1` loop of `_compute_merkle_root`;
terminates because each level at least halves the number of nodes. -/
def merkleLoop (Hb : List Nat → List Nat) (current : List (List Nat)) : List Nat :=
  if 1 < current.length then
    merkleLoop Hb (merkleLevel Hb current)
  else
    current.headD []
termination_by current.length
decreasing_by
  have key : ∀ n, ∀ l : List (List Nat), l.length ≤ n →
      2 * (merkleLevel Hb l).length ≤ l.length + 1 := by
    intro n
    induction n with
    | zero =>
      intro l hl
      have hnil : l = [] := List.eq_nil_of_length_eq_zero (Nat.le_zero.mp hl)
      subst hnil
      simp [merkleLevel]
    | succ n ih =>
      intro l hl
      cases l with
      | nil => simp [merkleLevel]
      | cons a t =>
        cases t with
        | nil => simp [merkleLevel]
        | cons b rest =>
          have hr := ih rest (by simp at hl; omega)
          simp [merkleLevel] at hr ⊢
          omega
  have hk := key current.length current (le_refl _)
  omega

/-- `_compute_merkle_root`: zero root for no hashes, the hash itself for a
single hash, otherwise the level-by-level fold. -/
def compute_merkle_root (Hb : List Nat → List Nat) (hashes : List (List Nat)) : List Nat :=
  match hashes with
  | [] => List.replicate 32 0
  | [h] => h
  | _ :: _ :: _ => merkleLoop Hb hashes

/-- Boolean sort key comparison used by `compute_thread_root`:
Python `sorted(messages, key=lambda m: (m.timestamp, m.id))`, i.e. the
lexicographic order on the pair (timestamp, id). -/
def msgLE (a b : XMTPMessage) : Bool :=
  decide (a.timestamp < b.timestamp)
    || (decide (a.timestamp = b.timestamp) && decide (a.id ≤ b.id))

/-- `compute_thread_root`: all-zero 32-byte root for an empty thread,
otherwise the Merkle root of the canonical hashes of the messages sorted by
(timestamp, id).  Python `sorted` is a stable merge sort, modelled by
`List.mergeSort`. -/
def compute_thread_root (Hs : String → List Nat) (Hb : List Nat → List Nat)
    (messages : List XMTPMessage) : List Nat :=
  if messages.isEmpty then List.replicate 32 0
  else
    let sortedMessages := messages.mergeSort msgLE
    let messageHashes := sortedMessages.map (compute_message_hash Hs)
    compute_merkle_root Hb messageHashes

/-- Last-wins lookup of a message by id, modelling the Python dict
comprehension `{msg.id: msg for msg in messages}` followed by `get`:
a later entry with the same id overwrites an earlier one. -/
def mapLookup (messages : List XMTPMessage) (key : String) : Option XMTPMessage :=
  messages.foldl (fun acc m => if m.id = key then some m else acc) none

/-- `verify_causality`: for each message whose `parent_id` is truthy
(`if msg.parent_id:`), its parent must resolve in the id map and the
timestamp must not decrease from parent to child.  Nothing else is
checked; in particular no cycle detection is performed. -/
def verify_causality (messages : List XMTPMessage) : Bool :=
  messages.all (fun msg =>
    match msg.parent_id with
    | none => true
    | some pid =>
      if pid = "" then true
      else
        match mapLookup messages pid with
        | none => false
        | some parent => decide (parent.timestamp ≤ msg.timestamp))

/-- Python truthiness of the stored `vlc` field (`and msg.vlc`). -/
def vlcTruthy : Option String → Bool
  | none => false
  | some s => !(s == "")

/-- Value of one hexadecimal digit character, by code point
(48-57 are digits, 97-102 lower case, 65-70 upper case). -/
def hexDigitVal (c : Char) : Option Nat :=
  if 48 ≤ c.toNat ∧ c.toNat ≤ 57 then some (c.toNat - 48)
  else if 97 ≤ c.toNat ∧ c.toNat ≤ 102 then some (c.toNat - 87)
  else if 65 ≤ c.toNat ∧ c.toNat ≤ 70 then some (c.toNat - 55)
  else none

/-- Hex string (as characters) to bytes, modelling `bytes.fromhex` on
canonical input: two digits per byte, `none` models the `ValueError`
raised on malformed input.  (`bytes.fromhex` also tolerates ASCII spaces
between bytes; the inputs in scope are canonical hex without spaces, so
that tolerance is not modelled.) -/
def hexPairs : List Char → Option (List Nat)
  | [] => some []
  | [_] => none
  | c1 :: c2 :: rest => do
      let hi ← hexDigitVal c1
      let lo ← hexDigitVal c2
      let tail ← hexPairs rest
      pure ((16 * hi + lo) :: tail)

/-- Strip a leading hex marker, modelling
`msg.vlc[2:] if msg.vlc.startswith(0x-marker) else msg.vlc`
(code points: 48 is the zero digit, 120 is lower case x). -/
def strip0x : List Char → List Char
  | c1 :: c2 :: rest => if c1.toNat = 48 ∧ c2.toNat = 120 then rest else c1 :: c2 :: rest
  | l => l

/-- Decode a stored hex VLC string to bytes. -/
def decodeVlcHex (s : String) : Option (List Nat) :=
  hexPairs (strip0x s.toList)

/-- `compute_vlc`: keccak of the canonical message hash concatenated with
the parent VLC.  The parent VLC is the all-zero 32-byte string when
`parent_id` is falsy; otherwise the loop scans `messages` in order for the
first entry whose id matches and whose stored `vlc` field is truthy, and
decodes that hex value (zero bytes again when no such entry exists).
`none` models the `ValueError` of `bytes.fromhex` on a malformed field. -/
def compute_vlc (Hs : String → List Nat) (Hb : List Nat → List Nat)
    (message : XMTPMessage) (messages : List XMTPMessage) : Option (List Nat) :=
  let message_hash := compute_message_hash Hs message
  let parent_vlc : Option (List Nat) :=
    match message.parent_id with
    | none => some (List.replicate 32 0)
    | some pid =>
      if pid = "" then some (List.replicate 32 0)
      else
        match messages.find? (fun m => (m.id == pid) && vlcTruthy m.vlc) with
        | none => some (List.replicate 32 0)
        | some m => decodeVlcHex (m.vlc.getD (""))
  parent_vlc.map (fun pv => Hb (message_hash ++ pv))

/-- One step up the parent chain as followed by `get_message_depth` and
`_get_message_depth`: `none` when `parent_id is None` or the parent id does
not resolve in the id map. -/
def parentStep (messages : List XMTPMessage) (m : XMTPMessage) : Option XMTPMessage :=
  match m.parent_id with
  | none => none
  | some pid => mapLookup messages pid

/-- Iterated parent steps (used to state acyclicity of the parent graph). -/
def parentStepIter (messages : List XMTPMessage) : Nat → XMTPMessage → Option XMTPMessage
  | 0, m => some m
  | k + 1, m => (parentStep messages m).bind (parentStepIter messages k)

/-- `get_message_depth` (`xmtp_client.py`) and the identical
`_get_message_depth` (`verifier_agent.py`): depth 1 for a message whose
`parent_id is None` or whose parent id does not resolve, otherwise one more
than the depth of the resolved parent.  The Python recursion is unbounded;
it is modelled with fuel, `none` standing for non-termination of the
recursion (a cycle in the parent graph).  With fuel `messages.length + 1`
the `none` results are exactly the inputs on which the Python recursion
never returns. -/
def get_message_depth : Nat → XMTPMessage → List XMTPMessage → Option Nat
  | 0, _, _ => none
  | fuel + 1, message, messages =>
    match parentStep messages message with
    | none => some 1
    | some parent => (get_message_depth fuel parent messages).map (1 + ·)

/-- Check that `pat` is a leading block of `s` (character lists). -/
def leadingBlock : List Char → List Char → Bool
  | [], _ => true
  | _ :: _, [] => false
  | p :: ps, c :: cs => (p == c) && leadingBlock ps cs

/-- Contiguous substring search on character lists. -/
def substrSearch (pat : List Char) : List Char → Bool
  | [] => leadingBlock pat []
  | c :: cs => leadingBlock pat (c :: cs) || substrSearch pat cs

/-- Python `pat in s` on strings: contiguous substring containment.  The
scoring code selects the messages of a participant with
`agent_id in msg.author`. -/
def isSubstring (pat s : String) : Bool :=
  substrSearch pat.toList s.toList

/-- Messages attributed to a participant: `agent_id in msg.author`
(substring containment, not equality), shared by all five scoring
dimensions. -/
def agentMessages (messages : List XMTPMessage) (agent_id : String) : List XMTPMessage :=
  messages.filter (fun m => isSubstring agent_id m.author)

/-- `_compute_initiative`: fraction of the participant messages that have
`parent_id is None`; 0 when the participant has no messages. -/
def compute_initiative (messages : List XMTPMessage) (agent_id : String) : ℚ :=
  let ams := agentMessages messages agent_id
  if ams.length = 0 then 0
  else ((ams.filter (fun m => m.parent_id.isNone)).length : ℚ) / (ams.length : ℚ)

/-- `_compute_collaboration`: fraction of the participant messages that have
`parent_id is not None`; 0 when the participant has no messages. -/
def compute_collaboration (messages : List XMTPMessage) (agent_id : String) : ℚ :=
  let ams := agentMessages messages agent_id
  if ams.length = 0 then 0
  else ((ams.filter (fun m => m.parent_id.isSome)).length : ℚ) / (ams.length : ℚ)

/-- `_compute_reasoning_depth`: average of the DAG depths of the participant
messages, divided by the fixed cap 10 and clamped to 1; 0 when the
participant has no messages.  `none` models the diverging depth recursion
(fuel `messages.length + 1` suffices for every terminating chain). -/
def compute_reasoning_depth (messages : List XMTPMessage) (agent_id : String) :
    Option ℚ :=
  let ams := agentMessages messages agent_id
  if ams.length = 0 then some 0
  else do
    let depths ← ams.mapM (fun m => get_message_depth (messages.length + 1) m messages)
    let avg : ℚ := ((depths.sum : ℚ)) / ((depths.length : ℚ))
    pure (min (avg / 10) 1)

/-- `_compute_compliance`: constantly 1 (the policy hook is not implemented). -/
def compute_compliance (_messages : List XMTPMessage) (_agent_id : String) : ℚ := 1

/-- Consecutive timestamp differences, from the
`for i in range(1, len(agent_messages))` loop of `_compute_efficiency`. -/
def timeDiffs : List XMTPMessage → List Int
  | a :: b :: rest => (b.timestamp - a.timestamp) :: timeDiffs (b :: rest)
  | _ => []

/-- Boolean comparison used by `agent_messages.sort(key=lambda m: m.timestamp)`. -/
def tsLE (a b : XMTPMessage) : Bool :=
  decide (a.timestamp ≤ b.timestamp)

/-- `_compute_efficiency`: 1 when the participant has fewer than two
messages; otherwise `max(0, 1 - avg_gap / 3600)` where `avg_gap` is the
average of the consecutive timestamp differences of the participant
messages sorted (stably) by timestamp. -/
def compute_efficiency (messages : List XMTPMessage) (agent_id : String) : ℚ :=
  let ams := (agentMessages messages agent_id).mergeSort tsLE
  if ams.length < 2 then 1
  else
    let diffs := timeDiffs ams
    let avg : ℚ := ((diffs.sum : ℚ)) / ((diffs.length : ℚ))
    max 0 (1 - avg / 3600)

/-- `_compute_custom_dimension`: constantly 0.75 (placeholder). -/
def compute_custom_dimension (_messages : List XMTPMessage) (_agent_id : String)
    (_dimension : String) : ℚ := 3 / 4

/-- A participant entry of the evidence package: the scoring loop keys each
participant by `str(participant.get(agent-id-key, participant.get(address-key,
empty)))`; `none` models an absent key. -/
structure Participant where
  agent_id : Option String
  address : Option String
deriving DecidableEq, Repr

/-- Resolved scoring key of a participant. -/
def Participant.resolvedId (p : Participant) : String :=
  match p.agent_id with
  | some a => a
  | none => p.address.getD ("")

/-- Python dict assignment `d[k] = v`: overwrite in place when the key is
present, append otherwise. -/
def dictInsert (d : List (String × List ℚ)) (k : String) (v : List ℚ) :
    List (String × List ℚ) :=
  if d.any (fun kv => kv.1 == k) then
    d.map (fun kv => if kv.1 == k then (k, v) else kv)
  else d ++ [(k, v)]

/-- Python dict read `d.get(k)`. -/
def dictFind (d : List (String × List ℚ)) (k : String) : Option (List ℚ) :=
  (d.find? (fun kv => kv.1 == k)).map (fun kv => kv.2)

/-- Score vector of one participant over a non-empty thread, from the body of
the `for participant in participants` loop of
`compute_multi_dimensional_scores`: the five universal dimensions scaled to
0-100, followed by one 0-100 entry per requested custom dimension. -/
def scoreVector (messages : List XMTPMessage) (agent_id : String)
    (custom_dimensions : Option (List String)) : Option (List ℚ) := do
  let initiative := compute_initiative messages agent_id
  let collaboration := compute_collaboration messages agent_id
  let reasoning ← compute_reasoning_depth messages agent_id
  let compliance := compute_compliance messages agent_id
  let efficiency := compute_efficiency messages agent_id
  let base := [initiative * 100, collaboration * 100, reasoning * 100,
    compliance * 100, efficiency * 100]
  let extra :=
    match custom_dimensions with
    | none => []
    | some dims => dims.map (fun d => compute_custom_dimension messages agent_id d * 100)
  pure (base ++ extra)

/-- `compute_multi_dimensional_scores`: with no messages
(`if not xmtp_messages:`) every participant receives the fixed default
vector [70, 70, 70, 100, 70]; otherwise each participant receives the
five-dimension vector (plus custom dimensions).  `none` models a diverging
depth recursion inside the reasoning dimension.  (An empty
`custom_dimensions` list is falsy in Python and appends nothing, exactly as
mapping over the empty list does here.) -/
def compute_multi_dimensional_scores (xmtp_messages : List XMTPMessage)
    (participants : List Participant) (custom_dimensions : Option (List String)) :
    Option (List (String × List ℚ)) :=
  if xmtp_messages.isEmpty then
    some (participants.foldl
      (fun d p => dictInsert d p.resolvedId [70, 70, 70, 100, 70]) [])
  else
    participants.foldlM
      (fun d p => do
        let v ← scoreVector xmtp_messages p.resolvedId custom_dimensions
        pure (dictInsert d p.resolvedId v))
      []

/-- Lower-case hex character of a value below 16. -/
def hexDigitChar (n : Nat) : Char :=
  Char.ofNat (if n < 10 then 48 + n else 87 + n)

/-- Lower-case hex rendering of a byte string (`bytes.hex()`). -/
def bytesToHex (bs : List Nat) : String :=
  String.mk (bs.foldr (fun b acc => hexDigitChar (b / 16) :: hexDigitChar (b % 16) :: acc) [])

/-- Leading hex marker test (`s.startswith` of the 0x marker). -/
def has0x : List Char → Bool
  | c1 :: c2 :: _ => (c1.toNat == 48) && (c2.toNat == 120)
  | _ => false

/-- `_verify_thread_root`: recompute the thread root, render it as 0x-prefixed
lower-case hex, normalise the expected root to the same shape and compare
case-insensitively. -/
def verify_thread_root (Hs : String → List Nat) (Hb : List Nat → List Nat)
    (messages : List XMTPMessage) (expected_root : String) : Bool :=
  let computedHex := ("0x") ++ bytesToHex (compute_thread_root Hs Hb messages)
  let expectedHex :=
    if has0x expected_root.toList then expected_root else ("0x") ++ expected_root
  computedHex.toLower == expectedHex.toLower

/-- `_verify_signatures`: the code unconditionally returns `True`. -/
def verify_signatures (_messages : List XMTPMessage) : Bool := true

/-- Evidence package fields read by `perform_causal_audit`
(`evidence_package.get(...)`); `none` models an absent key. -/
structure EvidencePackage where
  xmtp_thread_id : Option String
  thread_root : Option String
  participants : List Participant
deriving Repr

/-- The audit report dict assembled by `perform_causal_audit` (the wall-clock
timestamp entry is real time and is not modelled). -/
structure AuditReport where
  evidence_package_cid : String
  xmtp_messages_count : Nat
  participants : List Participant
  thread_root_valid : Option Bool
  causality_valid : Option Bool
  signatures_valid : Bool
deriving Repr

/-- The `AuditResult` dataclass; `audit_report = none` models the empty
report dict of the failure paths. -/
structure AuditResult where
  audit_passed : Bool
  evidence_package_cid : String
  data_hash : List Nat
  scores : List (String × List ℚ)
  audit_report : Option AuditReport
  errors : List String
deriving Repr

/-- Exception text of the except-branch when the score computation recurses
forever (Python raises `RecursionError`; the exact `str(e)` text is
abstracted). -/
def recursionErrorText : String := "maximum recursion depth exceeded"

/-- Exception text of the except-branch when the report dict is built while
the local `thread_root_valid` was never assigned, which happens whenever the
fetched thread is non-empty but the package has no truthy `thread_root`
(Python raises `UnboundLocalError`; the exact `str(e)` text is
abstracted). -/
def unboundLocalText : String := "local variable thread_root_valid referenced before assignment"

/-- `perform_causal_audit`.  External collaborators appear as parameters:
`fetched` is the result of `_fetch_evidence_package` (`none` = fetch
failure), `fetch_thread` is `_fetch_xmtp_thread`, and `data_hash_of`
abstracts `_compute_data_hash` (keccak of a canonical JSON dump, performed
by external libraries).  The stage structure of the source is kept:
fetch failure returns immediately with an empty report; afterwards the
thread-id check, the root check (only when messages exist and a truthy
declared root exists), the causality check (only when messages exist), the
signature check and the scoring all run, appending their error strings in
order; `audit_passed` is `errors == []`.  Two exception paths reach the
generic except-branch and discard the per-stage errors: a diverging score
recursion, and the unbound local `thread_root_valid` when messages exist
but no truthy `thread_root` is declared. -/
def perform_causal_audit (Hs : String → List Nat) (Hb : List Nat → List Nat)
    (evidence_package_cid : String) (fetched : Option EvidencePackage)
    (fetch_thread : String → List XMTPMessage)
    (data_hash_of : EvidencePackage → List Nat)
    (custom_dimensions : Option (List String)) : AuditResult :=
  match fetched with
  | none =>
      ⟨false, evidence_package_cid, List.replicate 32 0, [], none,
        [("Failed to fetch evidence package")]⟩
  | some pkg =>
      let tidTruthy := strTruthy pkg.xmtp_thread_id
      let xmtp_messages :=
        if tidTruthy then fetch_thread (pkg.xmtp_thread_id.getD ("")) else []
      let threadIdErrors : List String :=
        if tidTruthy then [] else [("No XMTP thread ID")]
      let rootChecked := (!xmtp_messages.isEmpty) && strTruthy pkg.thread_root
      let thread_root_valid := verify_thread_root Hs Hb xmtp_messages (pkg.thread_root.getD (""))
      let rootErrors : List String :=
        if rootChecked then
          (if thread_root_valid then [] else [("Thread root mismatch")])
        else []
      let causality_valid := verify_causality xmtp_messages
      let causalityErrors : List String :=
        if !xmtp_messages.isEmpty then
          (if causality_valid then [] else [("Causality check failed")])
        else []
      let signatures_valid := verify_signatures xmtp_messages
      let signatureErrors : List String :=
        if signatures_valid then [] else [("Signature verification failed")]
      match compute_multi_dimensional_scores xmtp_messages pkg.participants custom_dimensions with
      | none =>
          ⟨false, evidence_package_cid, List.replicate 32 0, [], none, [recursionErrorText]⟩
      | some scores =>
          if (!xmtp_messages.isEmpty) && !(strTruthy pkg.thread_root) then
            ⟨false, evidence_package_cid, List.replicate 32 0, [], none, [unboundLocalText]⟩
          else
            let errors := threadIdErrors ++ rootErrors ++ causalityErrors ++ signatureErrors
            ⟨errors.isEmpty, evidence_package_cid, data_hash_of pkg, scores,
              some ⟨evidence_package_cid, xmtp_messages.length, pkg.participants,
                (if xmtp_messages.isEmpty then none else some thread_root_valid),
                (if xmtp_messages.isEmpty then none else some causality_valid),
                signatures_valid⟩,
              errors⟩

/-- Claim-side formulation of one Merkle level, written from the words of the
specification: index the current level, pair node `2*i` with node `2*i+1`,
and pair an odd trailing node with itself. -/
def specLevel (Hb : List Nat → List Nat) (l : List (List Nat)) : List (List Nat) :=
  (List.range ((l.length + 1) / 2)).map (fun i =>
    Hb (l.getD (2 * i) [] ++ l.getD (2 * i + 1) (l.getD (2 * i) [])))

/-- Claim-side formulation of the Merkle fold: repeat `specLevel` until one
hash remains; the all-zero 32-byte value for an empty level. -/
def specMerkle (Hb : List Nat → List Nat) : List (List Nat) → List Nat
  | [] => List.replicate 32 0
  | [a] => a
  | a :: b :: rest => specMerkle Hb (specLevel Hb (a :: b :: rest))
termination_by l => l.length
decreasing_by
  simp [specLevel]
  omega

/-- Boolean comparison on integers (claim-side sorting of raw timestamps). -/
def intLE (a b : Int) : Bool := decide (a ≤ b)

/-- Consecutive differences of a list of timestamps (claim side). -/
def consecutiveGaps : List Int → List Int
  | a :: b :: rest => (b - a) :: consecutiveGaps (b :: rest)
  | _ => []

/-- Claim-side average inter-message gap: sort the raw timestamps, take the
consecutive differences, average them. -/
def sortedGapAvg (ts : List Int) : ℚ :=
  let s := ts.mergeSort intLE
  (((consecutiveGaps s).sum : ℚ)) / (((consecutiveGaps s).length : ℚ))

/-- Acyclicity of the parent graph of a message list: no message lies on a
parent-chain cycle.  Cycle lengths are bounded by `messages.length` so the
predicate is decidable; on a finite list every cycle yields one of this
bounded length, making this the usual notion of an acyclic graph. -/
abbrev NoParentCycle (messages : List XMTPMessage) : Prop :=
  ∀ m ∈ messages, ∀ k, k ≤ messages.length →
    parentStepIter messages (k + 1) m ≠ some m

theorem merkleLevel_length (Hb : List Nat → List Nat) :
    ∀ l : List (List Nat), (merkleLevel Hb l).length = (l.length + 1) / 2
  | [] => by simp [merkleLevel]
  | [a] => by simp [merkleLevel]
  | a :: b :: rest => by
      simp [merkleLevel, merkleLevel_length Hb rest]
      omega

theorem merkleLevel_ne_nil (Hb : List Nat → List Nat) (l : List (List Nat))
    (h : l ≠ []) : merkleLevel Hb l ≠ [] := by
  cases l with
  | nil => exact absurd rfl h
  | cons a t =>
    cases t with
    | nil => simp [merkleLevel]
    | cons b rest => simp [merkleLevel]

theorem specLevel_eq (Hb : List Nat → List Nat) :
    ∀ l : List (List Nat), specLevel Hb l = merkleLevel Hb l
  | [] => by simp [specLevel, merkleLevel]
  | [a] => by
      simp [specLevel, merkleLevel, List.range_succ]
  | a :: b :: rest => by
      have ih := specLevel_eq Hb rest
      have hlen : ((a :: b :: rest).length + 1) / 2 = (rest.length + 1) / 2 + 1 := by
        simp
        omega
      simp only [specLevel] at ih ⊢
      rw [hlen, List.range_succ_eq_map, List.map_cons, List.map_map]
      rw [show merkleLevel Hb (a :: b :: rest) = Hb (a ++ b) :: merkleLevel Hb rest from rfl]
      refine congrArg₂ List.cons (by simp) ?_
      rw [← ih]
      refine List.map_congr_left ?_
      intro i _
      simp only [Function.comp_apply]
      rw [show 2 * (i + 1) = 2 * i + 1 + 1 by omega]
      simp

theorem merkleLoop_eq_specMerkle_aux (Hb : List Nat → List Nat) :
    ∀ n (l : List (List Nat)), l.length ≤ n → l ≠ [] →
      merkleLoop Hb l = specMerkle Hb l := by
  intro n
  induction n with
  | zero =>
    intro l hl hne
    cases l with
    | nil => exact absurd rfl hne
    | cons a t => simp at hl
  | succ n ih =>
    intro l hl hne
    cases l with
    | nil => exact absurd rfl hne
    | cons a t =>
      cases t with
      | nil =>
        rw [merkleLoop]
        simp [specMerkle]
      | cons b rest =>
        rw [merkleLoop, if_pos (by simp)]
        have hstep : specMerkle Hb (a :: b :: rest)
            = specMerkle Hb (specLevel Hb (a :: b :: rest)) := by
          rw [specMerkle]
        rw [hstep, specLevel_eq]
        refine ih (merkleLevel Hb (a :: b :: rest)) ?_ (merkleLevel_ne_nil Hb _ (by simp))
        have hml := merkleLevel_length Hb (a :: b :: rest)
        simp at hml hl ⊢
        omega

theorem merkleLoop_eq_specMerkle (Hb : List Nat → List Nat) (l : List (List Nat))
    (h : l ≠ []) : merkleLoop Hb l = specMerkle Hb l :=
  merkleLoop_eq_specMerkle_aux Hb l.length l (le_refl _) h

theorem compute_merkle_root_eq_specMerkle (Hb : List Nat → List Nat)
    (hashes : List (List Nat)) : compute_merkle_root Hb hashes = specMerkle Hb hashes := by
  cases hashes with
  | nil => simp [compute_merkle_root, specMerkle]
  | cons a t =>
    cases t with
    | nil => simp [compute_merkle_root, specMerkle]
    | cons b rest =>
      show merkleLoop Hb (a :: b :: rest) = _
      exact merkleLoop_eq_specMerkle Hb _ (by simp)

theorem msgLE_trans : ∀ a b c : XMTPMessage,
    msgLE a b = true → msgLE b c = true → msgLE a c = true := by
  intro a b c hab hbc
  simp only [msgLE, Bool.or_eq_true, Bool.and_eq_true, decide_eq_true_eq] at hab hbc ⊢
  rcases hab with h1 | ⟨h1, h1'⟩ <;> rcases hbc with h2 | ⟨h2, h2'⟩
  · exact Or.inl (lt_trans h1 h2)
  · exact Or.inl (h2 ▸ h1)
  · exact Or.inl (h1 ▸ h2)
  · exact Or.inr ⟨h1.trans h2, le_trans h1' h2'⟩

theorem msgLE_total : ∀ a b : XMTPMessage, (msgLE a b || msgLE b a) = true := by
  intro a b
  simp only [msgLE, Bool.or_eq_true, Bool.and_eq_true, decide_eq_true_eq]
  rcases lt_trichotomy a.timestamp b.timestamp with h | h | h
  · exact Or.inl (Or.inl h)
  · rcases le_total a.id b.id with hid | hid
    · exact Or.inl (Or.inr ⟨h, hid⟩)
    · exact Or.inr (Or.inr ⟨h.symm, hid⟩)
  · exact Or.inr (Or.inl h)

theorem msgLE_key_antisymm {a b : XMTPMessage} (hab : msgLE a b = true)
    (hba : msgLE b a = true) : a.timestamp = b.timestamp ∧ a.id = b.id := by
  simp only [msgLE, Bool.or_eq_true, Bool.and_eq_true, decide_eq_true_eq] at hab hba
  rcases hab with h1 | ⟨h1, h1'⟩ <;> rcases hba with h2 | ⟨h2, h2'⟩
  · exact absurd h2 (lt_asymm h1)
  · exact absurd h1 (by rw [h2]; exact lt_irrefl _)
  · exact absurd h2 (by rw [h1]; exact lt_irrefl _)
  · exact ⟨h1, le_antisymm h1' h2'⟩

/-- C1: for every list of messages, `compute_thread_root` sorts the messages
by the pair (timestamp, id), takes the canonical hash of each message in
that order, and folds the hash list pairwise with a binary Merkle tree in
which an odd node at a level is paired with itself; for the empty list it
returns the all-zero 32-byte root. -/
theorem compute_thread_root_spec (Hs : String → List Nat) (Hb : List Nat → List Nat)
    (messages : List XMTPMessage) :
    (messages = [] → compute_thread_root Hs Hb messages = List.replicate 32 0)
    ∧ (messages ≠ [] → ∃ s : List XMTPMessage, s.Perm messages
        ∧ List.Pairwise (fun x y => msgLE x y = true) s
        ∧ compute_thread_root Hs Hb messages
            = specMerkle Hb (s.map (compute_message_hash Hs))) := by
  constructor
  · intro h
    subst h
    simp [compute_thread_root]
  · intro h
    refine ⟨messages.mergeSort msgLE, List.mergeSort_perm messages msgLE,
      List.sorted_mergeSort msgLE_trans msgLE_total messages, ?_⟩
    obtain ⟨a, t, rfl⟩ := List.exists_cons_of_ne_nil h
    exact compute_merkle_root_eq_specMerkle Hb
      (((a :: t).mergeSort msgLE).map (compute_message_hash Hs))

/-- Witness for C1 at the empty thread and at a concrete one-message
thread, with a concrete hash function. -/
theorem compute_thread_root_spec_witness :
    (compute_thread_root (fun _ => []) (fun _ => []) [] = List.replicate 32 0)
    ∧ (∃ s : List XMTPMessage,
        s.Perm [⟨("m1"), ("alice"), ("c"), 0, none, none, none⟩]
        ∧ List.Pairwise (fun x y => msgLE x y = true) s
        ∧ compute_thread_root (fun _ => []) (fun _ => [])
            [⟨("m1"), ("alice"), ("c"), 0, none, none, none⟩]
          = specMerkle (fun _ => [])
              (s.map (compute_message_hash (fun _ => [])))) :=
  ⟨(compute_thread_root_spec (fun _ => []) (fun _ => []) []).1 rfl,
   (compute_thread_root_spec (fun _ => []) (fun _ => [])
      [⟨("m1"), ("alice"), ("c"), 0, none, none, none⟩]).2 (by simp)⟩

theorem eq_of_perm_sorted_nodup_ids (l₁ : List XMTPMessage) :
    ∀ l₂, l₁.Perm l₂ →
      List.Pairwise (fun x y => msgLE x y = true) l₁ →
      List.Pairwise (fun x y => msgLE x y = true) l₂ →
      (l₁.map XMTPMessage.id).Nodup → l₁ = l₂ := by
  induction l₁ with
  | nil =>
    intro l₂ hp _ _ _
    exact hp.symm.eq_nil.symm
  | cons a t₁ ih =>
    intro l₂ hp hs₁ hs₂ hnd
    cases l₂ with
    | nil => exact absurd hp.eq_nil (by simp)
    | cons b t₂ =>
      have hab : a = b := by
        have ha2 : a ∈ b :: t₂ := hp.mem_iff.mp (List.mem_cons_self a t₁)
        have hb1 : b ∈ a :: t₁ := hp.mem_iff.mpr (List.mem_cons_self b t₂)
        rcases List.mem_cons.mp ha2 with h | hmem2
        · exact h
        rcases List.mem_cons.mp hb1 with h | hmem1
        · exact h.symm
        have h1 : msgLE a b = true := List.rel_of_pairwise_cons hs₁ hmem1
        have h2 : msgLE b a = true := List.rel_of_pairwise_cons hs₂ hmem2
        have hkey := msgLE_key_antisymm h1 h2
        exfalso
        simp only [List.map_cons, List.nodup_cons] at hnd
        exact hnd.1 (hkey.2 ▸ List.mem_map_of_mem XMTPMessage.id hmem1)
      subst hab
      have htail := ih t₂ hp.cons_inv hs₁.of_cons hs₂.of_cons
        (by simp only [List.map_cons, List.nodup_cons] at hnd; exact hnd.2)
      rw [htail]

/-- C5: given pairwise distinct message ids, `compute_thread_root` returns
bit-for-bit identical bytes on every permutation of the input list: the
result depends only on the set of messages, not on the supplied order.
(The id-uniqueness hypothesis reflects the data model, where ids are
transport-assigned and unique within a graph; the internal sort key
(timestamp, id) then determines the sorted order uniquely.) -/
theorem compute_thread_root_perm_invariant (Hs : String → List Nat)
    (Hb : List Nat → List Nat) (l₁ l₂ : List XMTPMessage) (hperm : l₁.Perm l₂)
    (hnd : (l₁.map XMTPMessage.id).Nodup) :
    compute_thread_root Hs Hb l₁ = compute_thread_root Hs Hb l₂ := by
  have hsorteq : l₁.mergeSort msgLE = l₂.mergeSort msgLE := by
    apply eq_of_perm_sorted_nodup_ids
    · exact ((List.mergeSort_perm l₁ msgLE).trans hperm).trans
        (List.mergeSort_perm l₂ msgLE).symm
    · exact List.sorted_mergeSort msgLE_trans msgLE_total l₁
    · exact List.sorted_mergeSort msgLE_trans msgLE_total l₂
    · exact (((List.mergeSort_perm l₁ msgLE).map XMTPMessage.id).nodup_iff).mpr hnd
  cases l₁ with
  | nil =>
    rw [hperm.symm.eq_nil]
  | cons a t =>
    have h2ne : l₂ ≠ [] := by
      intro h
      subst h
      exact absurd hperm.eq_nil (by simp)
    obtain ⟨b, t₂, rfl⟩ := List.exists_cons_of_ne_nil h2ne
    unfold compute_thread_root
    rw [if_neg (by simp), if_neg (by simp)]
    rw [hsorteq]

/-- Witness for C5 at a concrete two-message thread and its swap. -/
theorem compute_thread_root_perm_invariant_witness :
    compute_thread_root (fun _ => []) (fun _ => [])
        [⟨("m1"), ("alice"), ("c"), 0, none, none, none⟩,
         ⟨("m2"), ("bob"), ("d"), 1, none, none, none⟩]
      = compute_thread_root (fun _ => []) (fun _ => [])
        [⟨("m2"), ("bob"), ("d"), 1, none, none, none⟩,
         ⟨("m1"), ("alice"), ("c"), 0, none, none, none⟩] :=
  compute_thread_root_perm_invariant (fun _ => []) (fun _ => []) _ _
    (List.Perm.swap _ _ _) (by decide)

/-- C2 counterexample: two messages that declare each other as parent (with
equal timestamps) form a parent cycle, yet `verify_causality` accepts the
list, so the claimed cycle rejection does not hold. -/
theorem verify_causality_cycle_accepted :
    verify_causality
        [⟨("a"), ("alice"), ("x"), 0, some ("b"), none, none⟩,
         ⟨("b"), ("bob"), ("y"), 0, some ("a"), none, none⟩] = true
    ∧ ¬ NoParentCycle
        [⟨("a"), ("alice"), ("x"), 0, some ("b"), none, none⟩,
         ⟨("b"), ("bob"), ("y"), 0, some ("a"), none, none⟩] := by
  constructor
  · decide
  · decide

/-- C2 (amended): `verify_causality` returns `True` if and only if every
message with a truthy `parent_id` resolves, under the last-wins id map, to a
message of the list whose timestamp is less than or equal to the child
timestamp.  No cycle check is performed (see the counterexample). -/
theorem verify_causality_characterization (messages : List XMTPMessage) :
    verify_causality messages = true
      ↔ ∀ m ∈ messages, ∀ pid, m.parent_id = some pid → pid ≠ "" →
          ∃ parent, mapLookup messages pid = some parent
            ∧ parent.timestamp ≤ m.timestamp := by
  unfold verify_causality
  rw [List.all_eq_true]
  constructor
  · intro h m hm pid hpid hne
    have hx := h m hm
    simp only [hpid] at hx
    rw [if_neg hne] at hx
    cases hl : mapLookup messages pid with
    | none => rw [hl] at hx; simp at hx
    | some parent =>
      rw [hl] at hx
      exact ⟨parent, rfl, of_decide_eq_true hx⟩
  · intro h m hm
    cases hpid : m.parent_id with
    | none => simp
    | some pid =>
      by_cases hne : pid = ""
      · simp [hne]
      · obtain ⟨parent, hl, hts⟩ := h m hm pid hpid hne
        simp [hne, hl, hts]

theorem foldl_lookup_mem :
    ∀ (l : List XMTPMessage) (key : String) (acc : Option XMTPMessage)
      (p : XMTPMessage),
      l.foldl (fun acc m => if m.id = key then some m else acc) acc = some p →
      acc = some p ∨ p ∈ l := by
  intro l
  induction l with
  | nil =>
    intro key acc p h
    exact Or.inl h
  | cons a t ih =>
    intro key acc p h
    simp only [List.foldl_cons] at h
    rcases ih key _ p h with hacc | hmem
    · by_cases ha : a.id = key
      · rw [if_pos ha] at hacc
        have := Option.some.inj hacc
        subst this
        exact Or.inr (List.mem_cons_self a t)
      · rw [if_neg ha] at hacc
        exact Or.inl hacc
    · exact Or.inr (List.mem_cons_of_mem a hmem)

theorem mapLookup_mem {messages : List XMTPMessage} {key : String}
    {p : XMTPMessage} (h : mapLookup messages key = some p) : p ∈ messages := by
  rcases foldl_lookup_mem messages key none p h with hacc | hmem
  · cases hacc
  · exact hmem

theorem parentStep_mem {messages : List XMTPMessage} {m p : XMTPMessage}
    (h : parentStep messages m = some p) : p ∈ messages := by
  unfold parentStep at h
  cases hp : m.parent_id with
  | none => rw [hp] at h; cases h
  | some pid => rw [hp] at h; exact mapLookup_mem h

theorem parentStepIter_mem (messages : List XMTPMessage) :
    ∀ k m p, parentStepIter messages (k + 1) m = some p → p ∈ messages := by
  intro k
  induction k with
  | zero =>
    intro m p h
    simp only [parentStepIter] at h
    cases hs : parentStep messages m with
    | none => rw [hs] at h; cases h
    | some q =>
      rw [hs] at h
      simp only [Option.some_bind, parentStepIter] at h
      have := Option.some.inj h
      subst this
      exact parentStep_mem hs
  | succ j ih =>
    intro m p h
    rw [show j + 1 + 1 = (j + 1) + 1 from rfl] at h
    simp only [parentStepIter] at h
    cases hs : parentStep messages m with
    | none => rw [hs] at h; cases h
    | some q =>
      rw [hs] at h
      simp only [Option.some_bind] at h
      exact ih q p h

theorem parentStepIter_add (messages : List XMTPMessage) :
    ∀ a b m, parentStepIter messages (a + b) m
      = (parentStepIter messages a m).bind (parentStepIter messages b) := by
  intro a
  induction a with
  | zero =>
    intro b m
    simp [parentStepIter]
  | succ a ih =>
    intro b m
    rw [show a + 1 + b = (a + b) + 1 by omega]
    simp only [parentStepIter]
    cases hs : parentStep messages m with
    | none => simp
    | some q => simp [ih b q]

theorem depth_none_succ {fuel : Nat} {m : XMTPMessage} {messages : List XMTPMessage}
    (h : get_message_depth (fuel + 1) m messages = none) :
    ∃ p, parentStep messages m = some p
      ∧ get_message_depth fuel p messages = none := by
  unfold get_message_depth at h
  cases hs : parentStep messages m with
  | none => rw [hs] at h; cases h
  | some p =>
    rw [hs] at h
    dsimp only at h
    refine ⟨p, rfl, ?_⟩
    cases hd : get_message_depth fuel p messages with
    | none => rfl
    | some d => rw [hd] at h; simp at h

theorem depth_none_iter {messages : List XMTPMessage} :
    ∀ fuel m, get_message_depth fuel m messages = none →
      ∀ i, i ≤ fuel → (parentStepIter messages i m).isSome := by
  intro fuel
  induction fuel with
  | zero =>
    intro m h i hi
    have hz : i = 0 := Nat.le_zero.mp hi
    subst hz
    simp [parentStepIter]
  | succ fuel ih =>
    intro m h i hi
    obtain ⟨p, hs, hnone⟩ := depth_none_succ h
    cases i with
    | zero => simp [parentStepIter]
    | succ j =>
      have hj : j ≤ fuel := Nat.succ_le_succ_iff.mp hi
      have hr := ih p hnone j hj
      simp only [parentStepIter, hs, Option.some_bind]
      exact hr

/-- C6: for every finite message list whose parent relation is acyclic, the
recursive depth computation of `get_message_depth` terminates on every
message of the list — fuel `messages.length + 1` always suffices, so the
recursion returns a value; in particular a declared parent that is absent
from the list is a base case (depth 1), not a failure.  Proof: were the
fuel exhausted, the parent chain would visit `messages.length + 2` resolved
messages, so by pigeonhole one message would repeat, yielding a parent
cycle of bounded length and contradicting `NoParentCycle`. -/
theorem get_message_depth_terminates (messages : List XMTPMessage)
    (hacyc : NoParentCycle messages) :
    ∀ m ∈ messages, ∃ d,
      get_message_depth (messages.length + 1) m messages = some d := by
  intro m hm
  cases hd : get_message_depth (messages.length + 1) m messages with
  | some d => exact ⟨d, rfl⟩
  | none =>
    exfalso
    have hiter := depth_none_iter (messages.length + 1) m hd
    set n := messages.length with hn
    have hiter2 : ∀ i : Fin (n + 2), (parentStepIter messages i.val m).isSome := by
      intro i
      exact hiter i.val (by omega)
    let g : Fin (n + 2) → XMTPMessage :=
      fun i => (parentStepIter messages i.val m).get (hiter2 i)
    have hg_eq : ∀ i : Fin (n + 2), parentStepIter messages i.val m = some (g i) := by
      intro i
      exact (Option.some_get (hiter2 i)).symm
    have hg_mem : ∀ i : Fin (n + 2), g i ∈ messages := by
      intro i
      cases hi : i.val with
      | zero =>
        have hq := hg_eq i
        rw [hi] at hq
        simp only [parentStepIter] at hq
        rw [← Option.some.inj hq]
        exact hm
      | succ j =>
        have hq := hg_eq i
        rw [hi] at hq
        exact parentStepIter_mem messages j m (g i) hq
    have key : ∀ i j : Fin (n + 2), i.val < j.val → g i = g j → False := by
      intro i j hlt heq
      have h1 : parentStepIter messages (j.val - i.val) (g i) = some (g j) := by
        calc parentStepIter messages (j.val - i.val) (g i)
            = (some (g i)).bind (parentStepIter messages (j.val - i.val)) := rfl
          _ = (parentStepIter messages i.val m).bind
                (parentStepIter messages (j.val - i.val)) := by rw [hg_eq i]
          _ = parentStepIter messages (i.val + (j.val - i.val)) m :=
                (parentStepIter_add messages i.val (j.val - i.val) m).symm
          _ = parentStepIter messages j.val m := by
                rw [show i.val + (j.val - i.val) = j.val by omega]
          _ = some (g j) := hg_eq j
      have hcyc : parentStepIter messages (j.val - i.val) (g i) = some (g i) := by
        rw [h1, heq]
      have hbound : j.val - i.val - 1 ≤ n := by
        have := j.isLt
        omega
      have hinst := hacyc (g i) (hg_mem i) (j.val - i.val - 1) hbound
      rw [show j.val - i.val - 1 + 1 = j.val - i.val by omega] at hinst
      exact hinst hcyc
    have hcard : Fintype.card {x // x ∈ messages.toFinset} < Fintype.card (Fin (n + 2)) := by
      rw [Fintype.card_fin, Fintype.card_coe]
      have := List.toFinset_card_le messages
      omega
    obtain ⟨i, j, hij, hgij⟩ := Fintype.exists_ne_map_eq_of_card_lt
      (fun i : Fin (n + 2) => (⟨g i, List.mem_toFinset.mpr (hg_mem i)⟩ :
        {x // x ∈ messages.toFinset})) hcard
    have hval : g i = g j := congrArg Subtype.val hgij
    rcases Nat.lt_trichotomy i.val j.val with hlt | heqv | hgt
    · exact key i j hlt hval
    · exact hij (Fin.ext heqv)
    · exact key j i hgt hval.symm

/-- Witness for C6 at a concrete acyclic 2-chain (root plus one child). -/
theorem get_message_depth_terminates_witness :
    NoParentCycle
        [⟨("a"), ("alice"), ("x"), 0, none, none, none⟩,
         ⟨("b"), ("bob"), ("y"), 1, some ("a"), none, none⟩]
    ∧ ∃ d, get_message_depth
        (([⟨("a"), ("alice"), ("x"), 0, none, none, none⟩,
           ⟨("b"), ("bob"), ("y"), 1, some ("a"), none, none⟩] :
             List XMTPMessage).length + 1)
        ⟨("b"), ("bob"), ("y"), 1, some ("a"), none, none⟩
        [⟨("a"), ("alice"), ("x"), 0, none, none, none⟩,
         ⟨("b"), ("bob"), ("y"), 1, some ("a"), none, none⟩] = some d :=
  ⟨by decide,
   get_message_depth_terminates _ (by decide) _ (by decide)⟩

/-- C3: `compute_vlc` returns H(canonical_hash(node) plus 32 zero bytes) when
the message has no (truthy) parent id, and otherwise H(canonical_hash(node)
plus m) where m is the decoded VLC value stored on the parent — the first
list entry with the parent id and a truthy `vlc` field.  In this data model
a message has at most one parent, so m is degenerately the numerically
largest VLC value among the parents of the message. -/
theorem compute_vlc_spec (Hs : String → List Nat) (Hb : List Nat → List Nat)
    (message : XMTPMessage) (messages : List XMTPMessage) :
    (strTruthy message.parent_id = false →
      compute_vlc Hs Hb message messages
        = some (Hb (compute_message_hash Hs message ++ List.replicate 32 0)))
    ∧ (∀ pid parent v, message.parent_id = some pid → pid ≠ "" →
        messages.find? (fun m => (m.id == pid) && vlcTruthy m.vlc) = some parent →
        decodeVlcHex (parent.vlc.getD ("")) = some v →
        compute_vlc Hs Hb message messages
          = some (Hb (compute_message_hash Hs message ++ v))) := by
  constructor
  · intro h
    unfold compute_vlc
    cases hp : message.parent_id with
    | none => simp
    | some pid =>
      rw [hp] at h
      simp only [strTruthy, Bool.not_eq_false'] at h
      have hemp : pid = "" := by simpa using h
      simp [hemp]
  · intro pid parent v hp hne hfind hdec
    unfold compute_vlc
    rw [hp]
    dsimp only
    rw [if_neg hne, hfind]
    dsimp only
    rw [hdec]
    rfl

/-- Witness for C3: a root message, and a child whose parent stores the hex
VLC 0xff (decoding to the byte 255). -/
theorem compute_vlc_spec_witness :
    (strTruthy (none : Option String) = false
    ∧ compute_vlc (fun _ => []) (fun l => l)
        ⟨("r"), ("alice"), ("c"), 0, none, none, none⟩ []
      = some ((fun l : List Nat => l)
          (compute_message_hash (fun _ => []) ⟨("r"), ("alice"), ("c"), 0, none, none, none⟩
            ++ List.replicate 32 0)))
    ∧ compute_vlc (fun _ => []) (fun l => l)
        ⟨("c1"), ("bob"), ("d"), 1, some ("p"), none, none⟩
        [⟨("p"), ("alice"), ("c"), 0, none, none, some ("0xff")⟩]
      = some ((fun l : List Nat => l)
          (compute_message_hash (fun _ => []) ⟨("c1"), ("bob"), ("d"), 1, some ("p"), none, none⟩
            ++ [255])) :=
  ⟨⟨rfl, (compute_vlc_spec (fun _ => []) (fun l => l)
      ⟨("r"), ("alice"), ("c"), 0, none, none, none⟩ []).1 rfl⟩,
   (compute_vlc_spec (fun _ => []) (fun l => l)
      ⟨("c1"), ("bob"), ("d"), 1, some ("p"), none, none⟩
      [⟨("p"), ("alice"), ("c"), 0, none, none, some ("0xff")⟩]).2
     ("p") ⟨("p"), ("alice"), ("c"), 0, none, none, some ("0xff")⟩ [255]
     rfl (by decide) (by decide) (by decide)⟩

theorem tsLE_trans : ∀ a b c : XMTPMessage,
    tsLE a b = true → tsLE b c = true → tsLE a c = true := by
  intro a b c hab hbc
  simp only [tsLE, decide_eq_true_eq] at hab hbc ⊢
  omega

theorem tsLE_total : ∀ a b : XMTPMessage, (tsLE a b || tsLE b a) = true := by
  intro a b
  simp only [tsLE, Bool.or_eq_true, decide_eq_true_eq]
  omega

theorem intLE_trans : ∀ a b c : Int,
    intLE a b = true → intLE b c = true → intLE a c = true := by
  intro a b c hab hbc
  simp only [intLE, decide_eq_true_eq] at hab hbc ⊢
  omega

theorem intLE_total : ∀ a b : Int, (intLE a b || intLE b a) = true := by
  intro a b
  simp only [intLE, Bool.or_eq_true, decide_eq_true_eq]
  omega

theorem timeDiffs_eq : ∀ l : List XMTPMessage,
    timeDiffs l = consecutiveGaps (l.map XMTPMessage.timestamp)
  | [] => rfl
  | [_] => rfl
  | a :: b :: rest => by
      simp only [List.map_cons, timeDiffs, consecutiveGaps]
      rw [timeDiffs_eq (b :: rest)]
      simp

theorem map_ts_mergeSort (l : List XMTPMessage) :
    (l.mergeSort tsLE).map XMTPMessage.timestamp
      = (l.map XMTPMessage.timestamp).mergeSort intLE := by
  refine List.eq_of_perm_of_sorted (r := fun a b : Int => a ≤ b) ?_ ?_ ?_
  · exact ((List.mergeSort_perm l tsLE).map XMTPMessage.timestamp).trans
      ((List.mergeSort_perm (l.map XMTPMessage.timestamp) intLE).symm)
  · exact List.Pairwise.map XMTPMessage.timestamp
      (fun a b h => by simpa [tsLE] using h)
      (List.sorted_mergeSort tsLE_trans tsLE_total l)
  · exact List.Pairwise.imp (fun h => by simpa [intLE] using h)
      (List.sorted_mergeSort intLE_trans intLE_total (l.map XMTPMessage.timestamp))

/-- C7: for a participant with at least two (substring-attributed) messages,
the efficiency score equals max(0, 1 - g/3600) where g is the average gap
in seconds between the consecutive timestamps of those messages sorted by
timestamp; a participant with exactly one message receives efficiency 1. -/
theorem compute_efficiency_spec (messages : List XMTPMessage) (agent_id : String) :
    (2 ≤ (agentMessages messages agent_id).length →
      compute_efficiency messages agent_id
        = max 0 (1 - sortedGapAvg
            ((agentMessages messages agent_id).map XMTPMessage.timestamp) / 3600))
    ∧ ((agentMessages messages agent_id).length = 1 →
      compute_efficiency messages agent_id = 1) := by
  have hlen : ((agentMessages messages agent_id).mergeSort tsLE).length
      = (agentMessages messages agent_id).length :=
    (List.mergeSort_perm (agentMessages messages agent_id) tsLE).length_eq
  constructor
  · intro h2
    unfold compute_efficiency sortedGapAvg
    rw [if_neg (by omega)]
    rw [timeDiffs_eq, map_ts_mergeSort]
  · intro h1
    unfold compute_efficiency
    rw [if_pos (by omega)]

/-- Witness for C7: two messages of one author 1800 seconds apart, and a
single message of another author. -/
theorem compute_efficiency_spec_witness :
    (2 ≤ (agentMessages
        [⟨("m1"), ("alice"), ("c"), 0, none, none, none⟩,
         ⟨("m2"), ("alice"), ("d"), 1800, none, none, none⟩] ("alice")).length
    ∧ compute_efficiency
        [⟨("m1"), ("alice"), ("c"), 0, none, none, none⟩,
         ⟨("m2"), ("alice"), ("d"), 1800, none, none, none⟩] ("alice")
      = max 0 (1 - sortedGapAvg
          ((agentMessages
            [⟨("m1"), ("alice"), ("c"), 0, none, none, none⟩,
             ⟨("m2"), ("alice"), ("d"), 1800, none, none, none⟩] ("alice")).map
            XMTPMessage.timestamp) / 3600))
    ∧ ((agentMessages [⟨("m3"), ("bob"), ("e"), 7, none, none, none⟩] ("bob")).length = 1
    ∧ compute_efficiency [⟨("m3"), ("bob"), ("e"), 7, none, none, none⟩] ("bob") = 1) :=
  ⟨⟨by decide,
    (compute_efficiency_spec
      [⟨("m1"), ("alice"), ("c"), 0, none, none, none⟩,
       ⟨("m2"), ("alice"), ("d"), 1800, none, none, none⟩] ("alice")).1 (by decide)⟩,
   ⟨by decide,
    (compute_efficiency_spec
      [⟨("m3"), ("bob"), ("e"), 7, none, none, none⟩] ("bob")).2 (by decide)⟩⟩

theorem dict_find_map_other (k q : String) (v : List ℚ) (hqk : q ≠ k) :
    ∀ d : List (String × List ℚ),
      (d.map (fun kv => if kv.1 == k then (k, v) else kv)).find?
          (fun kv => kv.1 == q)
        = d.find? (fun kv => kv.1 == q) := by
  intro d
  induction d with
  | nil => rfl
  | cons a t ih =>
    rw [List.map_cons]
    by_cases hak : (a.1 == k) = true
    · have hkq : (k == q) = false := beq_eq_false_iff_ne.mpr (Ne.symm hqk)
      have haq : (a.1 == q) = false := by
        rw [eq_of_beq hak]
        exact hkq
      rw [if_pos hak]
      rw [List.find?_cons_of_neg _ (by rw [hkq]; exact Bool.false_ne_true)]
      rw [List.find?_cons_of_neg _ (by rw [haq]; exact Bool.false_ne_true)]
      exact ih
    · have hak2 : (a.1 == k) = false := by simp only [Bool.not_eq_true] at hak; exact hak
      rw [if_neg hak]
      cases hq : (a.1 == q) with
      | true =>
        rw [@List.find?_cons_of_pos _ (fun kv => kv.1 == q) a _ hq,
          @List.find?_cons_of_pos _ (fun kv => kv.1 == q) a _ hq]
      | false =>
        rw [List.find?_cons_of_neg _ (by rw [hq]; exact Bool.false_ne_true)]
        rw [List.find?_cons_of_neg _ (by rw [hq]; exact Bool.false_ne_true)]
        exact ih

theorem dict_find_map_self (k : String) (v : List ℚ) :
    ∀ d : List (String × List ℚ),
      d.any (fun kv => kv.1 == k) = true →
      (d.map (fun kv => if kv.1 == k then (k, v) else kv)).find?
          (fun kv => kv.1 == k)
        = some (k, v) := by
  intro d h
  induction d with
  | nil => simp at h
  | cons a t ih =>
    rw [List.map_cons]
    by_cases hak : (a.1 == k) = true
    · rw [if_pos hak]
      exact List.find?_cons_of_pos _ (by simp)
    · have hak2 : (a.1 == k) = false := by simp only [Bool.not_eq_true] at hak; exact hak
      simp only [List.any_cons, hak2, Bool.false_or] at h
      rw [if_neg hak]
      rw [List.find?_cons_of_neg _ (by rw [hak2]; exact Bool.false_ne_true)]
      exact ih h

theorem dict_find_none_of_not_any (k : String) (d : List (String × List ℚ))
    (h : d.any (fun kv => kv.1 == k) = false) :
    d.find? (fun kv => kv.1 == k) = none := by
  rw [List.find?_eq_none]
  intro x hx
  intro hpx
  have : d.any (fun kv => kv.1 == k) = true := List.any_eq_true.mpr ⟨x, hx, hpx⟩
  rw [h] at this
  cases this

/-- Dict update characterization: after `d[k] = v`, looking up `k` yields `v`
and looking up any other key is unchanged. -/
theorem dictFind_dictInsert (d : List (String × List ℚ)) (k q : String) (v : List ℚ) :
    dictFind (dictInsert d k v) q = if q = k then some v else dictFind d q := by
  unfold dictInsert dictFind
  by_cases hany : d.any (fun kv => kv.1 == k) = true
  · rw [if_pos hany]
    by_cases hqk : q = k
    · subst hqk
      rw [if_pos rfl, dict_find_map_self q v d hany]
      rfl
    · rw [if_neg hqk, dict_find_map_other k q v hqk d]
  · rw [if_neg hany]
    by_cases hqk : q = k
    · subst hqk
      rw [if_pos rfl, List.find?_append,
        dict_find_none_of_not_any q d
          (by simp only [Bool.not_eq_true] at hany; exact hany)]
      simp [List.find?_cons]
    · rw [if_neg hqk, List.find?_append]
      cases hf : d.find? (fun kv => kv.1 == q) with
      | some e => simp [hf]
      | none =>
        have hkq : (k == q) = false := beq_eq_false_iff_ne.mpr (Ne.symm hqk)
        simp [hf, List.find?_cons, hkq]

theorem fold_const_lookup (v : List ℚ) :
    ∀ (ps : List Participant) (acc : List (String × List ℚ)) (x : String),
      (dictFind acc x = some v ∨ x ∈ ps.map Participant.resolvedId) →
      dictFind (ps.foldl (fun d q => dictInsert d q.resolvedId v) acc) x = some v := by
  intro ps
  induction ps with
  | nil =>
    intro acc x h
    rcases h with h | h
    · exact h
    · simp at h
  | cons p t ih =>
    intro acc x h
    simp only [List.foldl_cons]
    apply ih
    rcases h with h | h
    · left
      rw [dictFind_dictInsert]
      by_cases hx : x = p.resolvedId
      · rw [if_pos hx]
      · rw [if_neg hx]
        exact h
    · simp only [List.map_cons, List.mem_cons] at h
      rcases h with h | h
      · left
        rw [dictFind_dictInsert, if_pos h]
      · right
        exact h

/-- C9: with an empty message list, `compute_multi_dimensional_scores`
assigns every listed participant the fixed default vector
[70, 70, 70, 100, 70] rather than zeros or an explicit unscored state. -/
theorem default_scores_on_empty_thread (participants : List Participant)
    (custom : Option (List String)) :
    ∀ p ∈ participants,
      ∃ d, compute_multi_dimensional_scores [] participants custom = some d
        ∧ dictFind d p.resolvedId = some [70, 70, 70, 100, 70] := by
  intro p hp
  refine ⟨_, rfl, ?_⟩
  exact fold_const_lookup _ participants [] p.resolvedId
    (Or.inr (List.mem_map_of_mem Participant.resolvedId hp))

/-- Witness for C9 at a concrete one-participant list. -/
theorem default_scores_on_empty_thread_witness :
    (⟨some ("w"), none⟩ : Participant) ∈ [(⟨some ("w"), none⟩ : Participant)]
    ∧ ∃ d, compute_multi_dimensional_scores [] [⟨some ("w"), none⟩] none = some d
        ∧ dictFind d (Participant.resolvedId ⟨some ("w"), none⟩)
            = some [70, 70, 70, 100, 70] :=
  ⟨by decide,
   default_scores_on_empty_thread [⟨some ("w"), none⟩] none _ (by decide)⟩

theorem absent_scores_helper (messages : List XMTPMessage) (p : Participant)
    (hne : messages ≠ [])
    (h : ∀ m ∈ messages, isSubstring p.resolvedId m.author = false) :
    compute_multi_dimensional_scores messages [p] none
      = some [(p.resolvedId, [0, 0, 0, 100, 100])] := by
  have hams : agentMessages messages p.resolvedId = [] := by
    unfold agentMessages
    rw [List.filter_eq_nil_iff]
    intro m hm
    rw [h m hm]
    exact Bool.false_ne_true
  have hsv : scoreVector messages p.resolvedId none = some [0, 0, 0, 100, 100] := by
    unfold scoreVector compute_initiative compute_collaboration compute_reasoning_depth
      compute_compliance compute_efficiency
    rw [hams]
    simp
  unfold compute_multi_dimensional_scores
  rw [if_neg (by simp [List.isEmpty_iff, hne])]
  rw [List.foldlM_cons]
  simp [hsv, List.foldlM_nil, dictInsert]

/-- C10: over a non-empty message list, a participant none of whose messages
appear in it (no author contains the participant id as substring) receives
the score vector [0, 0, 0, 100, 100]: initiative, collaboration and
reasoning depth are 0, while compliance and efficiency are both the maximum
100 — a participant who contributed nothing still receives non-zero
scores. -/
theorem absent_participant_score_vector (messages : List XMTPMessage)
    (p : Participant) (hne : messages ≠ [])
    (h : ∀ m ∈ messages, isSubstring p.resolvedId m.author = false) :
    compute_multi_dimensional_scores messages [p] none
      = some [(p.resolvedId, [0, 0, 0, 100, 100])] :=
  absent_scores_helper messages p hne h

/-- Witness for C10 at a concrete one-message thread and an unmatched
participant. -/
theorem absent_participant_score_vector_witness :
    ([⟨("m1"), ("zzz"), ("c"), 0, none, none, none⟩] : List XMTPMessage) ≠ []
    ∧ (∀ m ∈ ([⟨("m1"), ("zzz"), ("c"), 0, none, none, none⟩] : List XMTPMessage),
        isSubstring (Participant.resolvedId ⟨some ("q"), none⟩) m.author = false)
    ∧ compute_multi_dimensional_scores [⟨("m1"), ("zzz"), ("c"), 0, none, none, none⟩]
        [⟨some ("q"), none⟩] none
      = some [(Participant.resolvedId ⟨some ("q"), none⟩, [0, 0, 0, 100, 100])] :=
  ⟨by decide, by decide,
   absent_participant_score_vector _ _ (by decide) (by decide)⟩

/-- C4 (code slip): when the fetch succeeds, the fetched thread is non-empty
and the package carries no truthy `thread_root`, building the audit report
reads the never-assigned local `thread_root_valid`, so the audit collapses
into the generic except-branch: the returned error list is the exception
text alone — the causality failure detected earlier is dropped and the
report and scores are empty — contradicting the claim that after a
successful fetch each stage failure is appended to the returned error list.
(The iff between `audit_passed` and an empty returned error list does hold
on every return path, but the error list is not the per-stage list.) -/
theorem perform_causal_audit_unbound_local :
    verify_causality
        [⟨("a"), ("alice"), ("x"), 5, none, none, none⟩,
         ⟨("b"), ("bob"), ("y"), 1, some ("a"), none, none⟩] = false
    ∧ perform_causal_audit (fun _ => []) (fun _ => []) ("cid1")
        (some ⟨some ("t1"), none, [⟨some ("w"), none⟩]⟩)
        (fun _ =>
          [⟨("a"), ("alice"), ("x"), 5, none, none, none⟩,
           ⟨("b"), ("bob"), ("y"), 1, some ("a"), none, none⟩])
        (fun _ => []) none
      = ⟨false, ("cid1"), List.replicate 32 0, [], none, [unboundLocalText]⟩ := by
  have hsc := absent_scores_helper
      [⟨("a"), ("alice"), ("x"), 5, none, none, none⟩,
       ⟨("b"), ("bob"), ("y"), 1, some ("a"), none, none⟩]
      ⟨some ("w"), none⟩ (by decide) (by decide)
  constructor
  · decide
  · simp [perform_causal_audit, strTruthy, hsc]

theorem get_message_depth_unfold (fuel : Nat) (m : XMTPMessage)
    (messages : List XMTPMessage) :
    get_message_depth (fuel + 1) m messages
      = match parentStep messages m with
        | none => some 1
        | some parent => (get_message_depth fuel parent messages).map (1 + ·) := rfl

theorem get_message_depth_root {fuel : Nat} {m : XMTPMessage}
    {messages : List XMTPMessage} (hs : parentStep messages m = none) :
    get_message_depth (fuel + 1) m messages = some 1 := by
  rw [get_message_depth_unfold, hs]

theorem get_message_depth_step {fuel : Nat} {m p : XMTPMessage}
    {messages : List XMTPMessage} (hs : parentStep messages m = some p) :
    get_message_depth (fuel + 1) m messages
      = (get_message_depth fuel p messages).map (1 + ·) := by
  rw [get_message_depth_unfold, hs]

/-- C8: for a 3-node chain A then B then C with three distinct authors,
non-decreasing timestamps and distinct ids (each author id matching exactly
the own message), `compute_multi_dimensional_scores` gives the author of A
an initiative score of 100 (1.0 on the unit scale) and gives the author of
C a strictly higher reasoning-depth score than the authors of A and B. -/
theorem chain_scores_spec (A B C : XMTPMessage) (aA aB aC : String)
    (hA : A.parent_id = none) (hB : B.parent_id = some A.id)
    (hC : C.parent_id = some B.id)
    (hAB : A.id ≠ B.id) (hAC : A.id ≠ C.id) (hBC : B.id ≠ C.id)
    (haAB : aA ≠ aB) (haAC : aA ≠ aC) (haBC : aB ≠ aC)
    (hsAA : isSubstring aA A.author = true) (hsAB : isSubstring aA B.author = false)
    (hsAC : isSubstring aA C.author = false)
    (hsBA : isSubstring aB A.author = false) (hsBB : isSubstring aB B.author = true)
    (hsBC : isSubstring aB C.author = false)
    (hsCA : isSubstring aC A.author = false) (hsCB : isSubstring aC B.author = false)
    (hsCC : isSubstring aC C.author = true)
    (_htAB : A.timestamp ≤ B.timestamp) (_htBC : B.timestamp ≤ C.timestamp) :
    ∃ vA vB vC : List ℚ,
      compute_multi_dimensional_scores [A, B, C]
          [⟨some aA, none⟩, ⟨some aB, none⟩, ⟨some aC, none⟩] none
        = some [(aA, vA), (aB, vB), (aC, vC)]
      ∧ vA.getD 0 0 = 100
      ∧ vA.getD 2 0 < vC.getD 2 0 ∧ vB.getD 2 0 < vC.getD 2 0 := by
  have hamsA : agentMessages [A, B, C] aA = [A] := by
    simp [agentMessages, List.filter, hsAA, hsAB, hsAC]
  have hamsB : agentMessages [A, B, C] aB = [B] := by
    simp [agentMessages, List.filter, hsBA, hsBB, hsBC]
  have hamsC : agentMessages [A, B, C] aC = [C] := by
    simp [agentMessages, List.filter, hsCA, hsCB, hsCC]
  have hstepA : parentStep [A, B, C] A = none := by
    simp [parentStep, hA]
  have hstepB : parentStep [A, B, C] B = some A := by
    simp [parentStep, hB, mapLookup, Ne.symm hAB, Ne.symm hAC]
  have hstepC : parentStep [A, B, C] C = some B := by
    simp [parentStep, hC, mapLookup, hAB, Ne.symm hBC]
  have hdA : ∀ fuel, get_message_depth (fuel + 1) A [A, B, C] = some 1 :=
    fun _ => get_message_depth_root hstepA
  have hdB : ∀ fuel, get_message_depth (fuel + 2) B [A, B, C] = some 2 := by
    intro fuel
    show get_message_depth (fuel + 1 + 1) B [A, B, C] = some 2
    rw [get_message_depth_step hstepB, hdA fuel]
    rfl
  have hdC : ∀ fuel, get_message_depth (fuel + 3) C [A, B, C] = some 3 := by
    intro fuel
    show get_message_depth (fuel + 2 + 1) C [A, B, C] = some 3
    rw [get_message_depth_step hstepC, hdB fuel]
    rfl
  have hsvA : scoreVector [A, B, C] aA none = some [100, 0, 10, 100, 100] := by
    unfold scoreVector compute_initiative compute_collaboration compute_reasoning_depth
      compute_compliance compute_efficiency
    rw [hamsA]
    rw [show ([A, B, C] : List XMTPMessage).length + 1 = 3 + 1 from rfl]
    dsimp only
    rw [List.mapM_cons, List.mapM_nil]
    simp only [hdA 3]
    simp [hA]
    norm_num [min_def]
  have hsvB : scoreVector [A, B, C] aB none = some [0, 100, 20, 100, 100] := by
    unfold scoreVector compute_initiative compute_collaboration compute_reasoning_depth
      compute_compliance compute_efficiency
    rw [hamsB]
    rw [show ([A, B, C] : List XMTPMessage).length + 1 = 2 + 2 from rfl]
    dsimp only
    rw [List.mapM_cons, List.mapM_nil]
    simp only [hdB 2]
    simp [hB]
    norm_num [min_def]
  have hsvC : scoreVector [A, B, C] aC none = some [0, 100, 30, 100, 100] := by
    unfold scoreVector compute_initiative compute_collaboration compute_reasoning_depth
      compute_compliance compute_efficiency
    rw [hamsC]
    rw [show ([A, B, C] : List XMTPMessage).length + 1 = 1 + 3 from rfl]
    dsimp only
    rw [List.mapM_cons, List.mapM_nil]
    simp only [hdC 1]
    simp [hC]
    norm_num [min_def]
  refine ⟨[100, 0, 10, 100, 100], [0, 100, 20, 100, 100], [0, 100, 30, 100, 100],
    ?_, by norm_num, by norm_num [List.getD], by norm_num [List.getD]⟩
  unfold compute_multi_dimensional_scores
  rw [if_neg (by simp)]
  simp [List.foldlM_cons, List.foldlM_nil, Participant.resolvedId,
    hsvA, hsvB, hsvC, dictInsert, haAB, haAC, haBC]

/-- Witness for C8 at a concrete 3-node chain with authors x, y, z. -/
theorem chain_scores_spec_witness :
    isSubstring ("x") ("x") = true
    ∧ ∃ vA vB vC : List ℚ,
      compute_multi_dimensional_scores
          [⟨("a"), ("x"), (""), 0, none, none, none⟩,
           ⟨("b"), ("y"), (""), 1, some ("a"), none, none⟩,
           ⟨("c"), ("z"), (""), 2, some ("b"), none, none⟩]
          [⟨some ("x"), none⟩, ⟨some ("y"), none⟩, ⟨some ("z"), none⟩] none
        = some [(("x"), vA), (("y"), vB), (("z"), vC)]
      ∧ vA.getD 0 0 = 100
      ∧ vA.getD 2 0 < vC.getD 2 0 ∧ vB.getD 2 0 < vC.getD 2 0 :=
  ⟨by decide,
   chain_scores_spec
     ⟨("a"), ("x"), (""), 0, none, none, none⟩
     ⟨("b"), ("y"), (""), 1, some ("a"), none, none⟩
     ⟨("c"), ("z"), (""), 2, some ("b"), none, none⟩
     ("x") ("y") ("z")
     rfl rfl rfl
     (by decide) (by decide) (by decide)
     (by decide) (by decide) (by decide)
     (by decide) (by decide) (by decide)
     (by decide) (by decide) (by decide)
     (by decide) (by decide) (by decide)
     (by decide) (by decide)⟩
